import Mathlib

/-! Formal model of src/scripts/parse_commands.py.

The script parses command documentation strings by calling a remote
chat-completion API concurrently.  We model three layers of the code:

* the pydantic record model `Command` (lines 59-68) and the validation it
  performs on a decoded JSON object in `Command(**json.loads(...))`
  (line 87);
* the per-item retry loop `CommandParser.parse_command` (lines 89-104) as a
  trace-producing function driven by an oracle that gives the outcome of
  each attempt (an attempt fails when the remote call raises, or when the
  response is not valid JSON, or when `Command(**...)` raises);
* the concurrent run of `main` (lines 106-122) - one task per input item,
  paced submission, tasks gated by `SEMAPHORE = asyncio.Semaphore(30)`
  (line 16), successful tasks appending to the shared `result` list, all
  inside an `asyncio.TaskGroup` that cancels the remaining tasks when any
  task raises - as a small-step interleaving semantics over explicit
  scheduler actions.
-/

namespace ParseCommands

/-- Model of the pydantic model `Example` (source lines 59-61): two string
fields, each defaulting to the empty string. -/
structure Example where
  description : String := ""
  command : String := ""
deriving DecidableEq

/-- Model of the pydantic model `Command` (source lines 63-68): all fields
default to the empty string / empty list. -/
structure Command where
  signature : String := ""
  commandBase : String := ""
  description : String := ""
  examples : List Example := []
  note : String := ""
deriving DecidableEq

/-- Outcome of one complete attempt of `_parse_command` for one item: either
a fully constructed `Command`, or the message of the exception the attempt
raised (network error, invalid JSON, pydantic validation error, ...). -/
inductive CallResult where
  | ok (c : Command)
  | err (e : String)
deriving DecidableEq

/-- Observable events of one execution of `CommandParser.parse_command`
(source lines 89-104), in program order:
`call a` = the attempt with 0-based index `a` starts `_parse_command`;
`sleep d` = `await asyncio.sleep(d)` (line 103);
`append c` = `result.append(command)` (line 95);
`tick` = `progress.update(1)` (line 96);
`ret c` = `return command` (line 97);
`raiseErr e` = `raise e` on the fifth failed attempt (line 102);
`raiseRuntime` = the `raise RuntimeError(...)` after the loop (line 104). -/
inductive Ev where
  | call (attempt : Nat)
  | sleep (d : Nat)
  | append (c : Command)
  | tick
  | ret (c : Command)
  | raiseErr (e : String)
  | raiseRuntime
deriving DecidableEq

/-- One item's extraction oracle: `oracle a` is the outcome `_parse_command`
would produce on the attempt with 0-based index `a`. -/
def Oracle := Nat → CallResult

/-- The body of `for attempt in range(5)` in `parse_command` (lines 92-103),
run over the list of remaining attempt indices.  Returns the event trace and
the final result: `Except.ok c` models `return command`, `Except.error e`
models the exception `e` propagating out of `parse_command`.  The empty-list
case models falling through the loop to line 104. -/
def parseCommandLoop (oracle : Oracle) : List Nat → List Ev × Except String Command
  | [] => ([Ev.raiseRuntime], Except.error "Failed to parse command after multiple attempts")
  | attempt :: rest =>
    match oracle attempt with
    | CallResult.ok c => ([Ev.call attempt, Ev.append c, Ev.tick, Ev.ret c], Except.ok c)
    | CallResult.err e =>
      if attempt == 4 then
        ([Ev.call attempt, Ev.raiseErr e], Except.error e)
      else
        let next := parseCommandLoop oracle rest
        (Ev.call attempt :: Ev.sleep (2 ^ attempt) :: next.1, next.2)

/-- Model of `CommandParser.parse_command` (lines 89-104): the retry loop run
on `range(5)`. -/
def parse_command (oracle : Oracle) : List Ev × Except String Command :=
  parseCommandLoop oracle (List.range 5)

/-- The 0-based attempt indices of the `call` events of a trace, in order. -/
def callIdxs (tr : List Ev) : List Nat :=
  tr.filterMap fun e => match e with
    | Ev.call a => some a
    | _ => none

/-- Number of `_parse_command` calls recorded in a trace. -/
def countCalls (tr : List Ev) : Nat := (callIdxs tr).length

/-- Number of progress ticks (`progress.update(1)`) recorded in a trace. -/
def countTicks (tr : List Ev) : Nat :=
  (tr.filter fun e => e == Ev.tick).length

/-- Number of `return` events recorded in a trace. -/
def countRets (tr : List Ev) : Nat :=
  (tr.filter fun e => match e with
    | Ev.ret _ => true
    | _ => false).length

/-- Total backoff delay (sum of the `sleep` durations) of a trace. -/
def sleepTotal (tr : List Ev) : Nat :=
  (tr.map fun e => match e with
    | Ev.sleep d => d
    | _ => 0).sum

/-- Number of `raiseRuntime` events of a trace. -/
def countRuntimeRaises (tr : List Ev) : Nat :=
  (tr.filter fun e => e == Ev.raiseRuntime).length

/-- The oracle of an item whose extractor fails on every attempt, with
message `es a` on attempt `a`. -/
def alwaysFails (es : Nat → String) : Oracle := fun a => CallResult.err (es a)

/-- The oracle of an item whose extractor fails on attempts 1-4 (0-based 0-3)
and succeeds on attempt 5 (0-based 4). -/
def failsFourTimes (e1 e2 e3 e4 : String) (c : Command) : Oracle
  | 0 => CallResult.err e1
  | 1 => CallResult.err e2
  | 2 => CallResult.err e3
  | 3 => CallResult.err e4
  | _ => CallResult.ok c

/-- Helper: in the trace of the retry loop run over `range' a m`, a `call j`
event is either the very first event (with `j = a`), or is immediately
preceded by a `sleep (2 ^ (j - 1))` event. -/
theorem parseCommandLoop_sleep_before_call (oracle : Oracle) :
    ∀ (m a n j : Nat),
      (parseCommandLoop oracle (List.range' a m)).1.get? n = some (Ev.call j) →
      (n = 0 ∧ j = a) ∨
        (parseCommandLoop oracle (List.range' a m)).1.get? (n - 1) =
          some (Ev.sleep (2 ^ (j - 1))) := by
  intro m
  induction m with
  | zero =>
    intro a n j h
    rcases n with _ | _ | n <;> simp [parseCommandLoop] at h
  | succ m ih =>
    intro a n j h
    rw [List.range'_succ] at h ⊢
    rcases hoa : oracle a with c | e
    · rw [parseCommandLoop, hoa] at h
      rcases n with _ | _ | _ | _ | n <;> simp_all
    · by_cases ha : a = 4
      · subst ha
        simp only [parseCommandLoop, hoa, beq_self_eq_true, if_true] at h
        rcases n with _ | _ | n <;> simp_all
      · have hb : (a == 4) = false := by simp [ha]
        simp only [parseCommandLoop, hoa, hb, Bool.false_eq_true, if_false] at h ⊢
        rcases n with _ | _ | n
        · simp_all
        · simp at h
        · simp only [List.get?_cons_succ] at h
          rcases ih (a + 1) n j h with ⟨hn, hj⟩ | hsleep
          · subst hn hj
            simp [Nat.add_sub_cancel]
          · rcases n with _ | n
            · rw [hsleep] at h
              simp at h
            · simpa using hsleep

/-- Helper: the trace of `parse_command` starts with the first call, with no
preceding backoff. -/
theorem parse_command_head (oracle : Oracle) :
    (parse_command oracle).1.get? 0 = some (Ev.call 0) := by
  have hr : List.range 5 = 0 :: [1, 2, 3, 4] := rfl
  rw [parse_command, hr, parseCommandLoop]
  rcases hoa : oracle 0 with c | e <;> simp

/-- Helper: per-trace tick accounting for the retry loop — one tick exactly
when the loop returns a command, zero ticks when it raises. -/
theorem parseCommandLoop_ticks (oracle : Oracle) :
    ∀ l : List Nat,
      countTicks (parseCommandLoop oracle l).1 =
        match (parseCommandLoop oracle l).2 with
        | Except.ok _ => 1
        | Except.error _ => 0 := by
  intro l
  induction l with
  | nil => rfl
  | cons a rest ih =>
    rcases hoa : oracle a with c | e
    · simp [parseCommandLoop, hoa, countTicks]
    · by_cases ha : a = 4
      · subst ha
        simp [parseCommandLoop, hoa, countTicks]
      · have hb : (a == 4) = false := by simp [ha]
        simp only [parseCommandLoop, hoa, hb, Bool.false_eq_true, if_false]
        simpa [countTicks] using ih

/-- Helper: the retry loop never falls through to line 104 and always either
returns a command or re-raises the last error, provided attempt index 4 is
among the attempts (as it is for `range(5)`). -/
theorem parseCommandLoop_no_fallthrough (oracle : Oracle) :
    ∀ l : List Nat, 4 ∈ l →
      countRuntimeRaises (parseCommandLoop oracle l).1 = 0 ∧
      ((∃ c, (parseCommandLoop oracle l).2 = Except.ok c ∧
          Ev.ret c ∈ (parseCommandLoop oracle l).1) ∨
       (∃ e, (parseCommandLoop oracle l).2 = Except.error e ∧
          Ev.raiseErr e ∈ (parseCommandLoop oracle l).1)) := by
  intro l
  induction l with
  | nil => intro h; cases h
  | cons a rest ih =>
    intro h
    rcases hoa : oracle a with c | e
    · refine ⟨?_, Or.inl ⟨c, ?_, ?_⟩⟩ <;> simp [parseCommandLoop, hoa, countRuntimeRaises]
    · by_cases ha : a = 4
      · subst ha
        refine ⟨?_, Or.inr ⟨e, ?_, ?_⟩⟩ <;>
          simp [parseCommandLoop, hoa, countRuntimeRaises]
      · have hmem : 4 ∈ rest := by
          rcases List.mem_cons.mp h with h4 | h4
          · exact absurd h4.symm ha
          · exact h4
        rcases ih hmem with ⟨hcount, hres⟩
        have hb : (a == 4) = false := by simp [ha]
        simp only [parseCommandLoop, hoa, hb, Bool.false_eq_true, if_false]
        refine ⟨by simpa [countRuntimeRaises] using hcount, ?_⟩
        rcases hres with ⟨c, hc, hmem2⟩ | ⟨e2, he2, hmem2⟩
        · exact Or.inl ⟨c, hc, by simp [hmem2]⟩
        · exact Or.inr ⟨e2, he2, by simp [hmem2]⟩

/-- C6: no delay precedes attempt 1 (the trace starts with the first call),
before each retry attempt `k` (1-indexed, here `j = k - 1` 0-indexed with
`j ≥ 1`) the task sleeps exactly `2 ^ (k - 2) = 2 ^ (j - 1)` time units, and
an item failing on attempts 1-4 and succeeding on attempt 5 yields success
with exactly 5 calls and total backoff `1 + 2 + 4 + 8`. -/
theorem C6_retry_backoff_law :
    (∀ oracle : Oracle, (parse_command oracle).1.get? 0 = some (Ev.call 0)) ∧
    (∀ (oracle : Oracle) (n j : Nat),
        (parse_command oracle).1.get? n = some (Ev.call j) → 1 ≤ j →
        (parse_command oracle).1.get? (n - 1) = some (Ev.sleep (2 ^ (j - 1)))) ∧
    (∀ (e1 e2 e3 e4 : String) (c : Command),
        (parse_command (failsFourTimes e1 e2 e3 e4 c)).2 = Except.ok c ∧
        callIdxs (parse_command (failsFourTimes e1 e2 e3 e4 c)).1 = [0, 1, 2, 3, 4] ∧
        sleepTotal (parse_command (failsFourTimes e1 e2 e3 e4 c)).1 = 1 + 2 + 4 + 8) := by
  refine ⟨parse_command_head, ?_, fun e1 e2 e3 e4 c => ⟨rfl, rfl, rfl⟩⟩
  intro oracle n j h hj
  rw [parse_command, List.range_eq_range'] at h ⊢
  rcases parseCommandLoop_sleep_before_call oracle 5 0 n j h with ⟨_, hj0⟩ | hsleep
  · omega
  · exact hsleep

/-- Witness for C6 at a concrete oracle: in the always-failing trace the
event before the second call (0-based call 1, position 2) is a 1-unit
sleep. -/
theorem C6_retry_backoff_law_witness :
    (parse_command (alwaysFails fun _ => "w")).1.get? 1 = some (Ev.sleep (2 ^ (1 - 1))) :=
  C6_retry_backoff_law.2.1 (alwaysFails fun _ => "w") 2 1 (by decide) (by decide)

/-- C7: an item whose extractor fails on every attempt yields exactly 5
extractor calls (0-based attempt indices 0-4, never a 6th) and then the task
terminates with the failure carrying the last (5th) error. -/
theorem C7_exhaustion_attempt_bound (es : Nat → String) :
    callIdxs (parse_command (alwaysFails es)).1 = [0, 1, 2, 3, 4] ∧
    countCalls (parse_command (alwaysFails es)).1 = 5 ∧
    (parse_command (alwaysFails es)).2 = Except.error (es 4) :=
  ⟨rfl, rfl, rfl⟩

/-- C10: the `raise RuntimeError` after the retry loop (line 104) is
unreachable: for every oracle the trace contains no `raiseRuntime` event, and
the execution either returns a command from inside the loop or re-raises the
error caught on the 5th failed attempt. -/
theorem C10_runtime_error_unreachable (oracle : Oracle) :
    countRuntimeRaises (parse_command oracle).1 = 0 ∧
    ((∃ c, (parse_command oracle).2 = Except.ok c ∧ Ev.ret c ∈ (parse_command oracle).1) ∨
     (∃ e, (parse_command oracle).2 = Except.error e ∧
        Ev.raiseErr e ∈ (parse_command oracle).1)) :=
  parseCommandLoop_no_fallthrough oracle (List.range 5) (by decide)

/-- Counterexample to C3: for the concrete item whose extractor always fails
with "boom", `parse_command` re-raises the error (a `raiseErr` event, and the
exception propagates out as `Except.error`) and performs no `return` at all -
it does not return a `Failure`-style value as the claim states. -/
theorem C3_counterexample :
    (parse_command (alwaysFails fun _ => "boom")).2 = Except.error "boom" ∧
    Ev.raiseErr "boom" ∈ (parse_command (alwaysFails fun _ => "boom")).1 ∧
    countRets (parse_command (alwaysFails fun _ => "boom")).1 = 0 :=
  ⟨rfl, by decide, rfl⟩

/-- C3 amended: on exhaustion (the 5th attempt also fails) the task
re-raises the last error - the exception, carrying the last error's
description, propagates out of `parse_command` (line 102) instead of being
returned as a value; no `return` event occurs. -/
theorem C3_amended_exhaustion_raises (es : Nat → String) :
    (parse_command (alwaysFails es)).2 = Except.error (es 4) ∧
    Ev.raiseErr (es 4) ∈ (parse_command (alwaysFails es)).1 ∧
    countRets (parse_command (alwaysFails es)).1 = 0 := by
  refine ⟨rfl, ?_, rfl⟩
  have htr : (parse_command (alwaysFails es)).1 =
      [Ev.call 0, Ev.sleep 1, Ev.call 1, Ev.sleep 2, Ev.call 2, Ev.sleep 4,
       Ev.call 3, Ev.sleep 8, Ev.call 4, Ev.raiseErr (es 4)] := rfl
  rw [htr]
  simp

/-- Counterexample to C4: the concrete task whose extractor always fails
reaches a terminal failure (it settles), yet emits zero progress ticks -
not exactly one as the claim states for every settled task. -/
theorem C4_counterexample :
    countTicks (parse_command (alwaysFails fun _ => "boom")).1 = 0 ∧
    (parse_command (alwaysFails fun _ => "boom")).2 = Except.error "boom" :=
  ⟨rfl, rfl⟩

/-- JSON values, as produced by `json.loads(response.choices[0].message.content)`
on line 87. -/
inductive Json where
  | null
  | bool (b : Bool)
  | num (n : Int)
  | str (s : String)
  | arr (elems : List Json)
  | obj (fields : List (String × Json))

/-- Dictionary lookup of a key in a decoded JSON object. -/
def lookupField (key : String) : List (String × Json) → Option Json
  | [] => none
  | (k, v) :: rest => if k == key then some v else lookupField key rest

/-- Pydantic validation of one `str`-typed field with default `""`: an absent
field takes the default; a present field must be a JSON string, anything else
raises a validation error. -/
def validateStrField : Option Json → Except String String
  | none => Except.ok ""
  | some (Json.str s) => Except.ok s
  | some _ => Except.error "Input should be a valid string"

/-- Pydantic validation of one element of the `examples` list against the
`Example` model (lines 59-61). -/
def validateExample : Json → Except String Example
  | Json.obj fields => do
      let d ← validateStrField (lookupField "description" fields)
      let c ← validateStrField (lookupField "command" fields)
      Except.ok { description := d, command := c }
  | _ => Except.error "Input should be a valid dictionary or instance of Example"

/-- Pydantic validation of the `examples: list[Example] = []` field: absent
means the default `[]`; present must be a JSON array of valid examples. -/
def validateExamplesField : Option Json → Except String (List Example)
  | none => Except.ok []
  | some (Json.arr xs) => xs.mapM validateExample
  | some _ => Except.error "Input should be a valid list"

/-- Model of `Command(**json.loads(content))` on line 87: pydantic builds the
record from the decoded JSON object, field by field, with defaults for absent
fields; unknown keys are ignored; a non-object payload or an ill-typed field
raises. -/
def commandFromJson : Json → Except String Command
  | Json.obj fields => do
      let sig ← validateStrField (lookupField "signature" fields)
      let base ← validateStrField (lookupField "commandBase" fields)
      let desc ← validateStrField (lookupField "description" fields)
      let exs ← validateExamplesField (lookupField "examples" fields)
      let note ← validateStrField (lookupField "note" fields)
      Except.ok { signature := sig, commandBase := base, description := desc,
                  examples := exs, note := note }
  | _ => Except.error "argument after must be a mapping"

/-- Counterexample to C5: a response whose `signature` field is present but
not a string aborts the whole record construction with a validation error,
even though the rest of the record (here a well-formed `note`) is fine -
while the same response without the malformed field parses successfully. -/
theorem C5_counterexample :
    commandFromJson (Json.obj [("signature", Json.null), ("note", Json.str "careful")]) =
      Except.error "Input should be a valid string" ∧
    commandFromJson (Json.obj [("note", Json.str "careful")]) =
      Except.ok { note := "careful" } :=
  ⟨rfl, rfl⟩

/-- C5 amended: every absent field defaults to the empty string / empty list
(in particular the empty object validates to the all-default record), but a
field that is present with the wrong type aborts construction of the whole
record; only absence is tolerated. -/
theorem C5_amended_defaults (fields : List (String × Json)) (c : Command)
    (h : commandFromJson (Json.obj fields) = Except.ok c) :
    (lookupField "signature" fields = none → c.signature = "") ∧
    (lookupField "commandBase" fields = none → c.commandBase = "") ∧
    (lookupField "description" fields = none → c.description = "") ∧
    (lookupField "examples" fields = none → c.examples = []) ∧
    (lookupField "note" fields = none → c.note = "") ∧
    commandFromJson (Json.obj []) =
      Except.ok { signature := "", commandBase := "", description := "",
                  examples := [], note := "" } := by
  rcases hsig : validateStrField (lookupField "signature" fields) with esig | sig
  · rw [commandFromJson] at h
    rw [hsig] at h
    exact absurd h (by simp [Bind.bind, Except.bind])
  rcases hbase : validateStrField (lookupField "commandBase" fields) with ebase | base
  · rw [commandFromJson] at h
    rw [hsig, hbase] at h
    exact absurd h (by simp [Bind.bind, Except.bind])
  rcases hdesc : validateStrField (lookupField "description" fields) with edesc | desc
  · rw [commandFromJson] at h
    rw [hsig, hbase, hdesc] at h
    exact absurd h (by simp [Bind.bind, Except.bind])
  rcases hexs : validateExamplesField (lookupField "examples" fields) with eexs | exs
  · rw [commandFromJson] at h
    rw [hsig, hbase, hdesc, hexs] at h
    exact absurd h (by simp [Bind.bind, Except.bind])
  rcases hnote : validateStrField (lookupField "note" fields) with enote | note
  · rw [commandFromJson] at h
    rw [hsig, hbase, hdesc, hexs, hnote] at h
    exact absurd h (by simp [Bind.bind, Except.bind])
  rw [commandFromJson] at h
  rw [hsig, hbase, hdesc, hexs, hnote] at h
  simp only [Bind.bind, Except.bind, Except.ok.injEq] at h
  subst h
  refine ⟨?_, ?_, ?_, ?_, ?_, rfl⟩
  · intro habs
    rw [habs] at hsig
    injection hsig with hinj
    exact hinj.symm
  · intro habs
    rw [habs] at hbase
    injection hbase with hinj
    exact hinj.symm
  · intro habs
    rw [habs] at hdesc
    injection hdesc with hinj
    exact hinj.symm
  · intro habs
    rw [habs] at hexs
    injection hexs with hinj
    exact hinj.symm
  · intro habs
    rw [habs] at hnote
    injection hnote with hinj
    exact hinj.symm

/-- Witness for C5 amended at a concrete response: an object carrying only a
`note` field validates, and the resulting record's `signature` defaulted to
the empty string. -/
theorem C5_amended_defaults_witness :
    commandFromJson (Json.obj [("note", Json.str "x")]) = Except.ok { note := "x" } ∧
    ({ note := "x" } : Command).signature = "" :=
  ⟨rfl, (C5_amended_defaults [("note", Json.str "x")] { note := "x" } rfl).1 rfl⟩

/-! Concurrent run model.

`main` (lines 106-122) creates one `parse_command` task per input item inside
an `asyncio.TaskGroup`, with a pacing `await asyncio.sleep(0.1)` between
submissions.  asyncio is cooperative: code between two `await` points runs
atomically.  The suspension points of one task are: entering
`async with SEMAPHORE` (line 78), the remote call itself (line 80), and the
backoff sleep (line 103).  So one task is always in one of the phases below,
and a scheduler step moves one task across one suspension point.  When a task
raises (retry exhaustion, line 102 - note that `except Exception` does not
catch `asyncio.CancelledError`), the TaskGroup cancels every other
unfinished task at its next suspension point and stops the submission loop
(its pacing sleep raises `CancelledError`). -/

/-- Phase of one task of the concurrent run.
`pending`: not yet created by the submission loop (line 115);
`acquiring a`: attempt `a`, waiting on `async with SEMAPHORE` (line 78);
`calling a`: holding the semaphore permit, remote call in flight (line 80);
`sleeping a`: in the backoff sleep after failed attempt `a` (line 103);
`done c`: returned `c` after appending it to the shared `result` list;
`failed e`: raised `e` out of the task (5th attempt failed, line 102);
`cancelled`: cancelled by the `asyncio.TaskGroup` after a sibling raised. -/
inductive Phase where
  | pending
  | acquiring (attempt : Nat)
  | calling (attempt : Nat)
  | sleeping (attempt : Nat)
  | done (c : Command)
  | failed (e : String)
  | cancelled
deriving DecidableEq

/-- One task of the run: its phase plus whether it currently holds a
semaphore permit (entered the `async with SEMAPHORE` block and not yet left
it). -/
structure TaskState where
  phase : Phase
  hasPermit : Bool
deriving DecidableEq

/-- Global state of the run: the per-item tasks (index = the item's position
in `commands`), the semaphore's free-permit count, the shared `result` list
(line 111) in append order, the `progress` counter, how many tasks the
submission loop has created, and whether the TaskGroup is cancelling
(a task has raised). -/
structure Config where
  tasks : List TaskState
  sem : Nat
  result : List Command
  progress : Nat
  submitted : Nat
  aborting : Bool
deriving DecidableEq

/-- Extraction outcomes for a whole run: `oracle t a` is what task `t`'s
attempt with 0-based index `a` produces. -/
def RunOracle := Nat → Nat → CallResult

/-- Capacity of the global `SEMAPHORE = asyncio.Semaphore(30)` (line 16). -/
def SEMAPHORE : Nat := 30

/-- Scheduler actions, one per suspension-point crossing:
`submit` = the main loop creates the next task (line 115);
`acquire t` = task `t` enters the semaphore (line 78);
`complete t` = task `t`'s remote call finishes: the permit is released at the
end of the `async with` block, then (atomically, no `await` in between) the
response is decoded and on success appended to `result` with a progress tick,
on failure the task enters backoff (attempt < 4) or re-raises (attempt 4);
`wake t` = task `t`'s backoff sleep finishes (line 103);
`cancel t` = the TaskGroup's cancellation reaches suspended task `t`. -/
inductive Action where
  | submit
  | acquire (t : Nat)
  | complete (t : Nat)
  | wake (t : Nat)
  | cancel (t : Nat)
deriving DecidableEq

/-- One scheduler step: `none` when the action is not enabled in `cfg`. -/
def step (oracle : RunOracle) (cfg : Config) : Action → Option Config
  | Action.submit =>
    if cfg.aborting then none
    else if h : cfg.submitted < cfg.tasks.length then
      match (cfg.tasks.get ⟨cfg.submitted, h⟩).phase with
      | Phase.pending =>
        some { cfg with tasks := cfg.tasks.set cfg.submitted ⟨Phase.acquiring 0, false⟩,
                        submitted := cfg.submitted + 1 }
      | _ => none
    else none
  | Action.acquire t =>
    if h : t < cfg.tasks.length then
      match (cfg.tasks.get ⟨t, h⟩).phase, cfg.sem with
      | Phase.acquiring a, free + 1 =>
        some { cfg with tasks := cfg.tasks.set t ⟨Phase.calling a, true⟩, sem := free }
      | _, _ => none
    else none
  | Action.complete t =>
    if h : t < cfg.tasks.length then
      match (cfg.tasks.get ⟨t, h⟩).phase with
      | Phase.calling a =>
        match oracle t a with
        | CallResult.ok c =>
          some { cfg with tasks := cfg.tasks.set t ⟨Phase.done c, false⟩,
                          sem := cfg.sem + 1,
                          result := cfg.result ++ [c],
                          progress := cfg.progress + 1 }
        | CallResult.err e =>
          if a == 4 then
            some { cfg with tasks := cfg.tasks.set t ⟨Phase.failed e, false⟩,
                            sem := cfg.sem + 1,
                            aborting := true }
          else
            some { cfg with tasks := cfg.tasks.set t ⟨Phase.sleeping a, false⟩,
                            sem := cfg.sem + 1 }
      | _ => none
    else none
  | Action.wake t =>
    if h : t < cfg.tasks.length then
      match (cfg.tasks.get ⟨t, h⟩).phase with
      | Phase.sleeping a =>
        some { cfg with tasks := cfg.tasks.set t ⟨Phase.acquiring (a + 1), false⟩ }
      | _ => none
    else none
  | Action.cancel t =>
    if cfg.aborting then
      if h : t < cfg.tasks.length then
        match (cfg.tasks.get ⟨t, h⟩).phase with
        | Phase.acquiring _ => some { cfg with tasks := cfg.tasks.set t ⟨Phase.cancelled, false⟩ }
        | Phase.sleeping _ => some { cfg with tasks := cfg.tasks.set t ⟨Phase.cancelled, false⟩ }
        | Phase.calling _ =>
          some { cfg with tasks := cfg.tasks.set t ⟨Phase.cancelled, false⟩, sem := cfg.sem + 1 }
        | _ => none
      else none
    else none

/-- Initial state of a run of `n` items with semaphore capacity `cap`. -/
def initConfig (n cap : Nat) : Config :=
  { tasks := List.replicate n ⟨Phase.pending, false⟩, sem := cap, result := [],
    progress := 0, submitted := 0, aborting := false }

/-- Run a whole schedule of scheduler actions; `none` if any action is not
enabled where it occurs. -/
def execFrom (oracle : RunOracle) (cfg : Config) : List Action → Option Config
  | [] => some cfg
  | a :: rest =>
    match step oracle cfg a with
    | some cfg2 => execFrom oracle cfg2 rest
    | none => none

/-- Boolean test for a phase with the remote call in flight. -/
def isCallingPhase : Phase → Bool
  | Phase.calling _ => true
  | _ => false

/-- Boolean test for a successfully finished phase. -/
def isDonePhase : Phase → Bool
  | Phase.done _ => true
  | _ => false

/-- Number of tasks whose remote call is in flight. -/
def countCalling (ts : List TaskState) : Nat :=
  ts.countP fun t => isCallingPhase t.phase

/-- Number of tasks that completed successfully. -/
def countDone (ts : List TaskState) : Nat :=
  ts.countP fun t => isDonePhase t.phase

/-- Number of outstanding semaphore permits. -/
def countPermits (ts : List TaskState) : Nat :=
  ts.countP fun t => t.hasPermit

/-- The record of a successfully finished task, if any. -/
def doneRecord (t : TaskState) : Option Command :=
  match t.phase with
  | Phase.done c => some c
  | _ => none

/-- Record extracted from item 0 in the counterexample runs. -/
def recordA : Command := { signature := "a" }

/-- Record extracted from item 1 in the counterexample runs. -/
def recordB : Command := { signature := "b" }

/-- Run oracle of the order counterexample: both items succeed on their first
attempt, item 0 yielding `recordA` and item 1 yielding `recordB`. -/
def twoOkOracle : RunOracle := fun t _ =>
  if t == 0 then CallResult.ok recordA else CallResult.ok recordB

/-- A schedule in which item 1's remote call completes before item 0's. -/
def swapSchedule : List Action :=
  [Action.submit, Action.submit, Action.acquire 0, Action.acquire 1,
   Action.complete 1, Action.complete 0]

/-- Counterexample to C1: a successful 2-item run (both tasks settle in
`done`, nothing failed) in which item 1's call completes first, so the shared
`result` list ends up as `[recordB, recordA]`: the record at position 0 is
the one extracted from input item 1, not from input item 0.  Output order is
append order, i.e. completion order, not the item's position index. -/
theorem C1_counterexample :
    (execFrom twoOkOracle (initConfig 2 SEMAPHORE) swapSchedule).map
        (fun s => (s.result, s.tasks.map TaskState.phase)) =
      some ([recordB, recordA], [Phase.done recordA, Phase.done recordB]) ∧
    recordB ≠ recordA :=
  ⟨rfl, by decide⟩

/-- Run oracle of the abort counterexample: item 0's extractor always fails,
item 1's would succeed. -/
def abortOracle : RunOracle := fun t _ =>
  if t == 0 then CallResult.err "dead" else CallResult.ok recordB

/-- A schedule in which item 1's remote call is still in flight while item 0
burns through all five attempts and raises; the TaskGroup then cancels
task 1. -/
def abortSchedule : List Action :=
  [Action.submit, Action.submit, Action.acquire 1, Action.acquire 0, Action.complete 0,
   Action.wake 0, Action.acquire 0, Action.complete 0,
   Action.wake 0, Action.acquire 0, Action.complete 0,
   Action.wake 0, Action.acquire 0, Action.complete 0,
   Action.wake 0, Action.acquire 0, Action.complete 0,
   Action.cancel 1]

/-- Counterexample to C2: in this reachable execution item 0 exhausts its
retries and raises, and the TaskGroup cancels the still-in-flight sibling
task 1, which therefore never settles (it ends `cancelled`, neither `done`
nor `failed`).  A per-item exhaustion does abort sibling tasks; the run does
not first let every task settle. -/
theorem C2_counterexample :
    (execFrom abortOracle (initConfig 2 SEMAPHORE) abortSchedule).map
        (fun s => (s.tasks.map TaskState.phase, s.aborting)) =
      some ([Phase.failed "dead", Phase.cancelled], true) := rfl

/-! Generic list bookkeeping lemmas for states updated at one index. -/

/-- Counting after a one-position update: the count of the updated list plus
the old element's contribution equals the old count plus the new element's
contribution. -/
theorem countP_set {α : Type} (p : α → Bool) :
    ∀ (l : List α) (i : Nat) (v : α) (h : i < l.length),
      (l.set i v).countP p + (if p (l.get ⟨i, h⟩) then 1 else 0) =
        l.countP p + (if p v then 1 else 0) := by
  intro l
  induction l with
  | nil => intro i v h; exact absurd h (Nat.not_lt_zero i)
  | cons a tl ih =>
    intro i v h
    rcases i with _ | i
    · have hz : (a :: tl).set 0 v = v :: tl := rfl
      have hga : (a :: tl).get ⟨0, h⟩ = a := rfl
      rw [hz, List.countP_cons, List.countP_cons, hga]
      cases pa : p a <;> cases pv : p v <;> simp [pa, pv]
    · have h2 : i < tl.length := Nat.lt_of_succ_lt_succ h
      have := ih i v h2
      by_cases pa : p a <;>
        simp only [List.set_cons_succ, List.countP_cons, List.get_cons_succ, pa] <;>
        omega

/-- A `filterMap` is unchanged by an update that swaps one filtered-out
element for another filtered-out element. -/
theorem filterMap_set_none {α β : Type} (f : α → Option β) :
    ∀ (l : List α) (i : Nat) (v : α) (h : i < l.length),
      f (l.get ⟨i, h⟩) = none → f v = none →
      (l.set i v).filterMap f = l.filterMap f := by
  intro l
  induction l with
  | nil => intro i v h; exact absurd h (Nat.not_lt_zero i)
  | cons a tl ih =>
    intro i v h hold hnew
    rcases i with _ | i
    · have hz : (a :: tl).set 0 v = v :: tl := rfl
      have hga : (a :: tl).get ⟨0, h⟩ = a := rfl
      rw [hga] at hold
      rw [hz]
      simp [List.filterMap_cons, hold, hnew]
    · have h2 : i < tl.length := Nat.lt_of_succ_lt_succ h
      simp only [List.get_cons_succ] at hold
      simp only [List.set_cons_succ, List.filterMap_cons]
      rw [ih i v h2 hold hnew]

/-- Updating one filtered-out element to an element mapped to `b` adds `b` to
the `filterMap`, up to permutation. -/
theorem filterMap_set_some {α β : Type} (f : α → Option β) :
    ∀ (l : List α) (i : Nat) (v : α) (b : β) (h : i < l.length),
      f (l.get ⟨i, h⟩) = none → f v = some b →
      ((l.set i v).filterMap f).Perm (b :: l.filterMap f) := by
  intro l
  induction l with
  | nil => intro i v b h; exact absurd h (Nat.not_lt_zero i)
  | cons a tl ih =>
    intro i v b h hold hnew
    rcases i with _ | i
    · have hz : (a :: tl).set 0 v = v :: tl := rfl
      have hga : (a :: tl).get ⟨0, h⟩ = a := rfl
      rw [hga] at hold
      rw [hz]
      simp [List.filterMap_cons, hold, hnew]
    · have h2 : i < tl.length := Nat.lt_of_succ_lt_succ h
      simp only [List.get_cons_succ] at hold
      simp only [List.set_cons_succ, List.filterMap_cons]
      rcases hfa : f a with _ | b2
      · exact ih i v b h2 hold hnew
      · exact ((ih i v b h2 hold hnew).cons b2).trans (List.Perm.swap b b2 _)

/-- A pointwise property of all positions survives a one-position update
whose new value satisfies it. -/
theorem forall_get_set {P : Nat → TaskState → Prop} {l : List TaskState} {t : Nat}
    {v : TaskState} (hl : ∀ i (h : i < l.length), P i (l.get ⟨i, h⟩)) (hv : P t v) :
    ∀ i (h : i < (l.set t v).length), P i ((l.set t v).get ⟨i, h⟩) := by
  intro i h
  have hlen : i < l.length := by simpa using h
  by_cases hit : t = i
  · subst hit
    rw [List.get_set_eq]
    exact hv
  · rw [List.get_set_ne hit]
    exact hl i hlen

/-- A positionwise witness in an updated list is an old witness or the new
value. -/
theorem exists_get_set {P : Nat → TaskState → Prop} {l : List TaskState} {t : Nat}
    {v : TaskState}
    (h : ∃ i, ∃ hi : i < (l.set t v).length, P i ((l.set t v).get ⟨i, hi⟩)) :
    (∃ i, ∃ hi : i < l.length, P i (l.get ⟨i, hi⟩)) ∨ P t v := by
  rcases h with ⟨i, hi, hp⟩
  have hlen : i < l.length := by simpa using hi
  by_cases hit : t = i
  · subst hit
    rw [List.get_set_eq] at hp
    exact Or.inr hp
  · rw [List.get_set_ne hit] at hp
    exact Or.inl ⟨i, hlen, hp⟩

/-- A positionwise witness survives an update whose new value is at a
position the witness cannot occupy. -/
theorem exists_set_old {P : Nat → TaskState → Prop} (l : List TaskState) (t : Nat)
    (v : TaskState) (hex : ∃ i, ∃ hi : i < l.length, P i (l.get ⟨i, hi⟩))
    (hnot : ∀ ht : t < l.length, ¬ P t (l.get ⟨t, ht⟩)) :
    ∃ i, ∃ hi : i < (l.set t v).length, P i ((l.set t v).get ⟨i, hi⟩) := by
  rcases hex with ⟨i, hi, hp⟩
  have hlen : i < (l.set t v).length := by simpa using hi
  by_cases hit : t = i
  · subst hit
    exact absurd hp (hnot hi)
  · exact ⟨i, hlen, by rw [List.get_set_ne hit]; exact hp⟩

/-- A positionwise witness at the updated position itself. -/
theorem exists_set_new {P : Nat → TaskState → Prop} (l : List TaskState) (t : Nat)
    (v : TaskState) (ht : t < l.length) (hv : P t v) :
    ∃ i, ∃ hi : i < (l.set t v).length, P i ((l.set t v).get ⟨i, hi⟩) :=
  ⟨t, by simpa using ht, by rw [List.get_set_eq]; exact hv⟩

/-- Counts of pointwise-equal predicates agree. -/
theorem countP_eq_of_pointwise (p q : TaskState → Bool) :
    ∀ l : List TaskState,
      (∀ i (h : i < l.length), p (l.get ⟨i, h⟩) = q (l.get ⟨i, h⟩)) →
      l.countP p = l.countP q := by
  intro l
  induction l with
  | nil => intro _; rfl
  | cons a tl ih =>
    intro hpq
    have h0 : p a = q a := hpq 0 (Nat.succ_pos _)
    have htl : List.countP p tl = List.countP q tl :=
      ih fun i h => hpq (i + 1) (Nat.succ_lt_succ h)
    simp [List.countP_cons, h0, htl]

/-- Counting over a replicated list of one filtered-out element. -/
theorem countP_replicate_zero {α : Type} (p : α → Bool) (v : α) (hp : p v = false) :
    ∀ n, (List.replicate n v).countP p = 0 := by
  intro n
  induction n with
  | zero => rfl
  | succ n ih => simp [List.replicate_succ, List.countP_cons, hp, ih]

/-- Filtering a replicated list of one filtered-out element. -/
theorem filterMap_replicate_none {α β : Type} (f : α → Option β) (v : α)
    (hf : f v = none) : ∀ n, (List.replicate n v).filterMap f = [] := by
  intro n
  induction n with
  | zero => rfl
  | succ n ih => simp [List.replicate_succ, List.filterMap_cons, hf, ih]

/-- Inductive invariant of the reachable configurations of a run of `n`
items under semaphore capacity `cap`:
the task list never changes length; free permits plus in-flight calls equal
the capacity; a task holds a permit exactly while its remote call is in
flight (never while backing off, handling a result, or finished); the
progress counter equals the number of successful tasks; the shared `result`
list holds exactly the records of the successful tasks (in some order); the
TaskGroup is cancelling exactly when some task has raised; a task is only
ever cancelled while the TaskGroup is cancelling; and a successful task's
record is one its own item's extractor produced. -/
structure Inv (oracle : RunOracle) (n cap : Nat) (s : Config) : Prop where
  tasksLen : s.tasks.length = n
  semCalling : s.sem + countCalling s.tasks = cap
  permitCalling : ∀ i (h : i < s.tasks.length),
    (s.tasks.get ⟨i, h⟩).hasPermit = isCallingPhase (s.tasks.get ⟨i, h⟩).phase
  progressDone : s.progress = countDone s.tasks
  resultPerm : s.result.Perm (s.tasks.filterMap doneRecord)
  abortingIffFailed : s.aborting = true ↔
    ∃ i, ∃ h : i < s.tasks.length, ∃ e, (s.tasks.get ⟨i, h⟩).phase = Phase.failed e
  cancelledAborting : ∀ i (h : i < s.tasks.length),
    (s.tasks.get ⟨i, h⟩).phase = Phase.cancelled → s.aborting = true
  doneFromOracle : ∀ i (h : i < s.tasks.length) (c : Command),
    (s.tasks.get ⟨i, h⟩).phase = Phase.done c → ∃ a, oracle i a = CallResult.ok c

/-- The initial configuration satisfies the invariant. -/
theorem Inv_init (oracle : RunOracle) (n cap : Nat) :
    Inv oracle n cap (initConfig n cap) := by
  have hcall : countCalling (List.replicate n (⟨Phase.pending, false⟩ : TaskState)) = 0 :=
    countP_replicate_zero _ _ rfl n
  have hdone : countDone (List.replicate n (⟨Phase.pending, false⟩ : TaskState)) = 0 :=
    countP_replicate_zero _ _ rfl n
  have hfm : (List.replicate n (⟨Phase.pending, false⟩ : TaskState)).filterMap doneRecord = [] :=
    filterMap_replicate_none _ _ rfl n
  refine ⟨?_, ?_, ?_, ?_, ?_, ?_, ?_, ?_⟩
  · simp [initConfig]
  · simp [initConfig, hcall]
  · intro i h
    have hg : (initConfig n cap).tasks.get ⟨i, h⟩ = ⟨Phase.pending, false⟩ :=
      List.get_replicate _ _
    rw [hg]
    rfl
  · simp [initConfig, hdone]
  · simp [initConfig, hfm]
  · constructor
    · intro habs
      simp [initConfig] at habs
    · rintro ⟨i, hi, e, hph⟩
      have hg : (initConfig n cap).tasks.get ⟨i, hi⟩ = ⟨Phase.pending, false⟩ :=
        List.get_replicate _ _
      rw [hg] at hph
      cases hph
  · intro i h hph
    have hg : (initConfig n cap).tasks.get ⟨i, h⟩ = ⟨Phase.pending, false⟩ :=
      List.get_replicate _ _
    rw [hg] at hph
    cases hph
  · intro i h c hph
    have hg : (initConfig n cap).tasks.get ⟨i, h⟩ = ⟨Phase.pending, false⟩ :=
      List.get_replicate _ _
    rw [hg] at hph
    cases hph

/-- Master preservation lemma: any step that rewrites one task to `v` (and
adjusts the scalar fields consistently) preserves the invariant. -/
theorem Inv_update (oracle : RunOracle) (n cap : Nat) (s : Config) (t : Nat)
    (h : t < s.tasks.length) (v : TaskState) (sem2 : Nat) (res2 : List Command)
    (prog2 : Nat) (ab2 : Bool) (sub2 : Nat) (inv : Inv oracle n cap s)
    (hperm : v.hasPermit = isCallingPhase v.phase)
    (hsem2 : sem2 + (if isCallingPhase v.phase then 1 else 0)
           = s.sem + (if isCallingPhase (s.tasks.get ⟨t, h⟩).phase then 1 else 0))
    (hprog2 : prog2 + (if isDonePhase (s.tasks.get ⟨t, h⟩).phase then 1 else 0)
            = s.progress + (if isDonePhase v.phase then 1 else 0))
    (holdDone : doneRecord (s.tasks.get ⟨t, h⟩) = none)
    (hres : (res2 = s.result ∧ doneRecord v = none) ∨
            ∃ c, doneRecord v = some c ∧ res2 = s.result ++ [c])
    (holdNotFailed : ∀ e, (s.tasks.get ⟨t, h⟩).phase ≠ Phase.failed e)
    (hab : ab2 = true ↔ (s.aborting = true ∨ ∃ e, v.phase = Phase.failed e))
    (hvCancel : v.phase = Phase.cancelled → ab2 = true)
    (hvDone : ∀ c, v.phase = Phase.done c → ∃ a, oracle t a = CallResult.ok c) :
    Inv oracle n cap
      { tasks := s.tasks.set t v, sem := sem2, result := res2,
        progress := prog2, submitted := sub2, aborting := ab2 } := by
  refine ⟨?_, ?_, ?_, ?_, ?_, ?_, ?_, ?_⟩
  · simpa using inv.tasksLen
  · have hc := countP_set (fun ts => isCallingPhase ts.phase) s.tasks t v h
    simp only [] at hc
    have hs := inv.semCalling
    simp only [countCalling] at hs ⊢
    omega
  · exact forall_get_set (P := fun _ ts => ts.hasPermit = isCallingPhase ts.phase)
      inv.permitCalling hperm
  · have hc := countP_set (fun ts => isDonePhase ts.phase) s.tasks t v h
    simp only [] at hc
    have hp := inv.progressDone
    simp only [countDone] at hp ⊢
    omega
  · rcases hres with ⟨hr2, hvnone⟩ | ⟨c, hvsome, hr2⟩
    · subst hr2
      rw [filterMap_set_none doneRecord s.tasks t v h holdDone hvnone]
      exact inv.resultPerm
    · subst hr2
      refine (List.perm_append_singleton c s.result).trans ?_
      refine (inv.resultPerm.cons c).trans ?_
      exact (filterMap_set_some doneRecord s.tasks t v c h holdDone hvsome).symm
  · constructor
    · intro hab2
      rcases hab.mp hab2 with habort | ⟨e, hve⟩
      · refine exists_set_old (P := fun _ ts => ∃ e, ts.phase = Phase.failed e)
          s.tasks t v (inv.abortingIffFailed.mp habort) ?_
        rintro ht ⟨e, hE⟩
        exact holdNotFailed e hE
      · exact exists_set_new (P := fun _ ts => ∃ e, ts.phase = Phase.failed e)
          s.tasks t v h ⟨e, hve⟩
    · intro hex
      apply hab.mpr
      rcases exists_get_set (P := fun _ ts => ∃ e, ts.phase = Phase.failed e) hex with
        hold | hnew
      · exact Or.inl (inv.abortingIffFailed.mpr hold)
      · exact Or.inr hnew
  · exact forall_get_set
      (P := fun _ ts => ts.phase = Phase.cancelled → ab2 = true)
      (fun i hi hc => hab.mpr (Or.inl (inv.cancelledAborting i hi hc))) hvCancel
  · exact forall_get_set
      (P := fun i ts => ∀ c, ts.phase = Phase.done c → ∃ a, oracle i a = CallResult.ok c)
      inv.doneFromOracle hvDone

/-- Every enabled step preserves the invariant. -/
theorem Inv_step (oracle : RunOracle) (n cap : Nat) (s s2 : Config) (act : Action)
    (inv : Inv oracle n cap s) (hstep : step oracle s act = some s2) :
    Inv oracle n cap s2 := by
  cases act with
  | submit =>
    rw [step] at hstep
    by_cases hab : s.aborting = true
    · rw [if_pos hab] at hstep
      exact Option.noConfusion hstep
    · rw [if_neg hab] at hstep
      by_cases h : s.submitted < s.tasks.length
      · rw [dif_pos h] at hstep
        rcases hph : (s.tasks.get ⟨s.submitted, h⟩).phase with _ | a | a | a | c | e | _ <;>
          rw [hph] at hstep <;> try exact Option.noConfusion hstep
        injection hstep with hs2
        subst hs2
        refine Inv_update oracle n cap s s.submitted h ⟨Phase.acquiring 0, false⟩
          s.sem s.result s.progress s.aborting (s.submitted + 1) inv rfl ?_ ?_ ?_ ?_ ?_ ?_ ?_ ?_
        · rw [hph]; rfl
        · rw [hph]; rfl
        · simp only [doneRecord, hph]
        · exact Or.inl ⟨rfl, rfl⟩
        · simp only [hph]; simp
        · simp
        · simp
        · simp
      · rw [dif_neg h] at hstep
        exact Option.noConfusion hstep
  | acquire t =>
    rw [step] at hstep
    by_cases h : t < s.tasks.length
    · rw [dif_pos h] at hstep
      rcases hph : (s.tasks.get ⟨t, h⟩).phase with _ | a | a | a | c | e | _ <;>
        rw [hph] at hstep <;> try exact Option.noConfusion hstep
      rcases hsem : s.sem with _ | free <;> rw [hsem] at hstep
      · exact Option.noConfusion hstep
      · injection hstep with hs2
        subst hs2
        refine Inv_update oracle n cap s t h ⟨Phase.calling a, true⟩
          free s.result s.progress s.aborting s.submitted inv rfl ?_ ?_ ?_ ?_ ?_ ?_ ?_ ?_
        · rw [hph, hsem]
          simp [isCallingPhase]
        · rw [hph]; rfl
        · simp only [doneRecord, hph]
        · exact Or.inl ⟨rfl, rfl⟩
        · simp only [hph]; simp
        · simp
        · simp
        · simp
    · rw [dif_neg h] at hstep
      exact Option.noConfusion hstep
  | complete t =>
    rw [step] at hstep
    by_cases h : t < s.tasks.length
    · rw [dif_pos h] at hstep
      rcases hph : (s.tasks.get ⟨t, h⟩).phase with _ | a | a | a | c | e | _ <;>
        rw [hph] at hstep <;> try exact Option.noConfusion hstep
      simp only [] at hstep
      rcases hoc : oracle t a with c | e <;> rw [hoc] at hstep <;>
        simp only [] at hstep
      · injection hstep with hs2
        subst hs2
        refine Inv_update oracle n cap s t h ⟨Phase.done c, false⟩
          (s.sem + 1) (s.result ++ [c]) (s.progress + 1) s.aborting s.submitted inv rfl
          ?_ ?_ ?_ ?_ ?_ ?_ ?_ ?_
        · rw [hph]
          simp [isCallingPhase]
        · rw [hph]
          simp [isDonePhase]
        · simp only [doneRecord, hph]
        · exact Or.inr ⟨c, rfl, rfl⟩
        · simp only [hph]; simp
        · simp
        · simp
        · intro c2 hc2
          injection hc2 with hcc
          exact ⟨a, hcc ▸ hoc⟩
      · by_cases ha : a = 4
        · have hb : (a == 4) = true := by simp [ha]
          rw [if_pos hb] at hstep
          injection hstep with hs2
          subst hs2
          refine Inv_update oracle n cap s t h ⟨Phase.failed e, false⟩
            (s.sem + 1) s.result s.progress true s.submitted inv rfl ?_ ?_ ?_ ?_ ?_ ?_ ?_ ?_
          · rw [hph]
            simp [isCallingPhase]
          · rw [hph]; rfl
          · simp only [doneRecord, hph]
          · exact Or.inl ⟨rfl, rfl⟩
          · simp only [hph]; simp
          · simp
          · simp
          · simp
        · have hb : (a == 4) = false := by simp [ha]
          rw [if_neg (by simp [hb] : ¬((a == 4) = true))] at hstep
          injection hstep with hs2
          subst hs2
          refine Inv_update oracle n cap s t h ⟨Phase.sleeping a, false⟩
            (s.sem + 1) s.result s.progress s.aborting s.submitted inv rfl ?_ ?_ ?_ ?_ ?_ ?_ ?_ ?_
          · rw [hph]
            simp [isCallingPhase]
          · rw [hph]; rfl
          · simp only [doneRecord, hph]
          · exact Or.inl ⟨rfl, rfl⟩
          · simp only [hph]; simp
          · simp
          · simp
          · simp
    · rw [dif_neg h] at hstep
      exact Option.noConfusion hstep
  | wake t =>
    rw [step] at hstep
    by_cases h : t < s.tasks.length
    · rw [dif_pos h] at hstep
      rcases hph : (s.tasks.get ⟨t, h⟩).phase with _ | a | a | a | c | e | _ <;>
        rw [hph] at hstep <;> try exact Option.noConfusion hstep
      injection hstep with hs2
      subst hs2
      refine Inv_update oracle n cap s t h ⟨Phase.acquiring (a + 1), false⟩
        s.sem s.result s.progress s.aborting s.submitted inv rfl ?_ ?_ ?_ ?_ ?_ ?_ ?_ ?_
      · rw [hph]; rfl
      · rw [hph]; rfl
      · simp only [doneRecord, hph]
      · exact Or.inl ⟨rfl, rfl⟩
      · simp only [hph]; simp
      · simp
      · simp
      · simp
    · rw [dif_neg h] at hstep
      exact Option.noConfusion hstep
  | cancel t =>
    rw [step] at hstep
    by_cases habt : s.aborting = true
    · rw [if_pos habt] at hstep
      by_cases h : t < s.tasks.length
      · rw [dif_pos h] at hstep
        rcases hph : (s.tasks.get ⟨t, h⟩).phase with _ | a | a | a | c | e | _ <;>
          rw [hph] at hstep <;> try exact Option.noConfusion hstep
        · injection hstep with hs2
          subst hs2
          refine Inv_update oracle n cap s t h ⟨Phase.cancelled, false⟩
            s.sem s.result s.progress s.aborting s.submitted inv rfl ?_ ?_ ?_ ?_ ?_ ?_ ?_ ?_
          · rw [hph]; rfl
          · rw [hph]; rfl
          · simp only [doneRecord, hph]
          · exact Or.inl ⟨rfl, rfl⟩
          · simp only [hph]; simp
          · simp [habt]
          · intro _
            exact habt
          · simp
        · injection hstep with hs2
          subst hs2
          refine Inv_update oracle n cap s t h ⟨Phase.cancelled, false⟩
            (s.sem + 1) s.result s.progress s.aborting s.submitted inv rfl ?_ ?_ ?_ ?_ ?_ ?_ ?_ ?_
          · rw [hph]
            simp [isCallingPhase]
          · rw [hph]; rfl
          · simp only [doneRecord, hph]
          · exact Or.inl ⟨rfl, rfl⟩
          · simp only [hph]; simp
          · simp [habt]
          · intro _
            exact habt
          · simp
        · injection hstep with hs2
          subst hs2
          refine Inv_update oracle n cap s t h ⟨Phase.cancelled, false⟩
            s.sem s.result s.progress s.aborting s.submitted inv rfl ?_ ?_ ?_ ?_ ?_ ?_ ?_ ?_
          · rw [hph]; rfl
          · rw [hph]; rfl
          · simp only [doneRecord, hph]
          · exact Or.inl ⟨rfl, rfl⟩
          · simp only [hph]; simp
          · simp [habt]
          · intro _
            exact habt
          · simp
      · rw [dif_neg h] at hstep
        exact Option.noConfusion hstep
    · rw [if_neg habt] at hstep
      exact Option.noConfusion hstep

/-- The invariant holds after any successfully executed schedule. -/
theorem Inv_execFrom (oracle : RunOracle) (n cap : Nat) :
    ∀ (acts : List Action) (s s2 : Config), Inv oracle n cap s →
      execFrom oracle s acts = some s2 → Inv oracle n cap s2 := by
  intro acts
  induction acts with
  | nil =>
    intro s s2 inv hrun
    rw [execFrom] at hrun
    injection hrun with hs2
    subst hs2
    exact inv
  | cons a rest ih =>
    intro s s2 inv hrun
    rw [execFrom] at hrun
    rcases hstep : step oracle s a with _ | s1
    · rw [hstep] at hrun
      exact Option.noConfusion hrun
    · rw [hstep] at hrun
      exact ih s1 s2 (Inv_step oracle n cap s s1 a inv hstep) hrun

/-- A phase is `calling` exactly when `isCallingPhase` says so. -/
theorem isCallingPhase_iff (ph : Phase) :
    isCallingPhase ph = true ↔ ∃ a, ph = Phase.calling a := by
  cases ph <;> simp [isCallingPhase]

/-- Under the invariant, outstanding permits are exactly the in-flight
calls. -/
theorem countPermits_eq_countCalling (oracle : RunOracle) (n cap : Nat) (s : Config)
    (inv : Inv oracle n cap s) : countPermits s.tasks = countCalling s.tasks :=
  countP_eq_of_pointwise _ _ s.tasks fun i hi => inv.permitCalling i hi

/-- A `filterMap` whose function succeeds at every position keeps the
length. -/
theorem length_filterMap_of_forall {α β : Type} (f : α → Option β) :
    ∀ l : List α, (∀ i (h : i < l.length), (f (l.get ⟨i, h⟩)).isSome = true) →
      (l.filterMap f).length = l.length := by
  intro l
  induction l with
  | nil => intro _; rfl
  | cons a tl ih =>
    intro hall
    have h0 : (f a).isSome = true := hall 0 (Nat.succ_pos _)
    rcases Option.isSome_iff_exists.mp h0 with ⟨b, hb⟩
    have htl : (tl.filterMap f).length = tl.length :=
      ih fun i h => hall (i + 1) (Nat.succ_lt_succ h)
    simp [List.filterMap_cons, hb, htl]

/-- A step never decreases the progress counter. -/
theorem progress_mono (oracle : RunOracle) (s : Config) (act : Action) (s2 : Config)
    (h : step oracle s act = some s2) : s.progress ≤ s2.progress := by
  cases act with
  | submit =>
    rw [step] at h
    by_cases hab : s.aborting = true
    · rw [if_pos hab] at h
      exact Option.noConfusion h
    · rw [if_neg hab] at h
      by_cases hlt : s.submitted < s.tasks.length
      · rw [dif_pos hlt] at h
        rcases hph : (s.tasks.get ⟨s.submitted, hlt⟩).phase with _ | a | a | a | c | e | _ <;>
          rw [hph] at h <;> try exact Option.noConfusion h
        injection h with h2
        subst h2
        exact Nat.le_refl _
      · rw [dif_neg hlt] at h
        exact Option.noConfusion h
  | acquire t =>
    rw [step] at h
    by_cases hlt : t < s.tasks.length
    · rw [dif_pos hlt] at h
      rcases hph : (s.tasks.get ⟨t, hlt⟩).phase with _ | a | a | a | c | e | _ <;>
        rw [hph] at h <;> try exact Option.noConfusion h
      rcases hsem : s.sem with _ | free <;> rw [hsem] at h
      · exact Option.noConfusion h
      · injection h with h2
        subst h2
        exact Nat.le_refl _
    · rw [dif_neg hlt] at h
      exact Option.noConfusion h
  | complete t =>
    rw [step] at h
    by_cases hlt : t < s.tasks.length
    · rw [dif_pos hlt] at h
      rcases hph : (s.tasks.get ⟨t, hlt⟩).phase with _ | a | a | a | c | e | _ <;>
        rw [hph] at h <;> try exact Option.noConfusion h
      simp only [] at h
      rcases hoc : oracle t a with c | e <;> rw [hoc] at h <;> simp only [] at h
      · injection h with h2
        subst h2
        exact Nat.le_succ _
      · by_cases ha : (a == 4) = true
        · rw [if_pos ha] at h
          injection h with h2
          subst h2
          exact Nat.le_refl _
        · rw [if_neg ha] at h
          injection h with h2
          subst h2
          exact Nat.le_refl _
    · rw [dif_neg hlt] at h
      exact Option.noConfusion h
  | wake t =>
    rw [step] at h
    by_cases hlt : t < s.tasks.length
    · rw [dif_pos hlt] at h
      rcases hph : (s.tasks.get ⟨t, hlt⟩).phase with _ | a | a | a | c | e | _ <;>
        rw [hph] at h <;> try exact Option.noConfusion h
      injection h with h2
      subst h2
      exact Nat.le_refl _
    · rw [dif_neg hlt] at h
      exact Option.noConfusion h
  | cancel t =>
    rw [step] at h
    by_cases hab : s.aborting = true
    · rw [if_pos hab] at h
      by_cases hlt : t < s.tasks.length
      · rw [dif_pos hlt] at h
        rcases hph : (s.tasks.get ⟨t, hlt⟩).phase with _ | a | a | a | c | e | _ <;>
          rw [hph] at h <;>
          first
          | exact Option.noConfusion h
          | (injection h with h2
             subst h2
             exact Nat.le_refl _)
      · rw [dif_neg hlt] at h
        exact Option.noConfusion h
    · rw [if_neg hab] at h
      exact Option.noConfusion h

/-- The schedule reaching a state with both remote calls in flight. -/
def midSchedule : List Action :=
  [Action.submit, Action.submit, Action.acquire 0, Action.acquire 1]

/-- The state after `midSchedule`: both items hold a permit and are mid-call. -/
def midConfig : Config :=
  { tasks := [⟨Phase.calling 0, true⟩, ⟨Phase.calling 0, true⟩], sem := 28,
    result := [], progress := 0, submitted := 2, aborting := false }

/-- The final state of the `swapSchedule` run. -/
def swapFinal : Config :=
  { tasks := [⟨Phase.done recordA, false⟩, ⟨Phase.done recordB, false⟩], sem := 30,
    result := [recordB, recordA], progress := 2, submitted := 2, aborting := false }

/-- The final state of the `abortSchedule` run. -/
def abortFinal : Config :=
  { tasks := [⟨Phase.failed "dead", false⟩, ⟨Phase.cancelled, false⟩], sem := 30,
    result := [], progress := 0, submitted := 2, aborting := true }

/-- C8: with semaphore capacity `cap` (the source's `SEMAPHORE` has capacity
30), at no reachable instant of a run are more than `cap` remote calls in
flight, and at most `cap` permits are outstanding; free permits plus
in-flight calls always equal the capacity. -/
theorem C8_concurrency_bound (n cap : Nat) (oracle : RunOracle) (acts : List Action)
    (s : Config) (h : execFrom oracle (initConfig n cap) acts = some s) :
    countCalling s.tasks ≤ cap ∧ countPermits s.tasks ≤ cap ∧
    s.sem + countCalling s.tasks = cap ∧ SEMAPHORE = 30 := by
  have inv := Inv_execFrom oracle n cap acts (initConfig n cap) s (Inv_init oracle n cap) h
  have hpc := countPermits_eq_countCalling oracle n cap s inv
  have hs := inv.semCalling
  refine ⟨by omega, by omega, hs, rfl⟩

/-- Witness for C8 at a concrete reachable state: after both of the two
items acquired the semaphore, the bounds hold at capacity 30. -/
theorem C8_concurrency_bound_witness :
    countCalling midConfig.tasks ≤ SEMAPHORE ∧ countPermits midConfig.tasks ≤ SEMAPHORE ∧
    midConfig.sem + countCalling midConfig.tasks = SEMAPHORE ∧ SEMAPHORE = 30 :=
  C8_concurrency_bound 2 SEMAPHORE twoOkOracle midSchedule midConfig rfl

/-- C9: in every reachable state, a task holds a semaphore permit exactly
while its remote call is in flight - the permit is taken entering the
`async with` block and given back when the call finishes (success, failure
or cancellation), never held during backoff sleeps or result handling - and
no permit ever leaks: free plus held permits always equal the capacity. -/
theorem C9_permit_scope (n cap : Nat) (oracle : RunOracle) (acts : List Action)
    (s : Config) (h : execFrom oracle (initConfig n cap) acts = some s) :
    (∀ i (hi : i < s.tasks.length),
        ((s.tasks.get ⟨i, hi⟩).hasPermit = true ↔
          ∃ a, (s.tasks.get ⟨i, hi⟩).phase = Phase.calling a)) ∧
    (∀ i (hi : i < s.tasks.length) (a : Nat),
        (s.tasks.get ⟨i, hi⟩).phase = Phase.sleeping a →
        (s.tasks.get ⟨i, hi⟩).hasPermit = false) ∧
    s.sem + countPermits s.tasks = cap := by
  have inv := Inv_execFrom oracle n cap acts (initConfig n cap) s (Inv_init oracle n cap) h
  have hpc := countPermits_eq_countCalling oracle n cap s inv
  refine ⟨?_, ?_, ?_⟩
  · intro i hi
    rw [inv.permitCalling i hi]
    exact isCallingPhase_iff _
  · intro i hi a hph
    rw [inv.permitCalling i hi, hph]
    rfl
  · rw [hpc]
    exact inv.semCalling

/-- Witness for C9 at a concrete reachable state with two in-flight calls:
no permit has leaked. -/
theorem C9_permit_scope_witness :
    midConfig.sem + countPermits midConfig.tasks = SEMAPHORE :=
  (C9_permit_scope 2 SEMAPHORE twoOkOracle midSchedule midConfig rfl).2.2

/-- C2 amended: per-item errors on non-final attempts are contained (they
never make the run abort: the TaskGroup is cancelling exactly when some task
has exhausted its five attempts and raised), but once one item exhausts its
retries the raised error makes the `asyncio.TaskGroup` cancel the in-flight
siblings instead of letting them settle - a sibling can end up `cancelled`
only after some task has failed. -/
theorem C2_amended_eager_abort (n cap : Nat) (oracle : RunOracle) (acts : List Action)
    (s : Config) (h : execFrom oracle (initConfig n cap) acts = some s) :
    (s.aborting = true ↔
      ∃ i, ∃ hi : i < s.tasks.length, ∃ e, (s.tasks.get ⟨i, hi⟩).phase = Phase.failed e) ∧
    (∀ i (hi : i < s.tasks.length), (s.tasks.get ⟨i, hi⟩).phase = Phase.cancelled →
      ∃ j, ∃ hj : j < s.tasks.length, ∃ e, (s.tasks.get ⟨j, hj⟩).phase = Phase.failed e) := by
  have inv := Inv_execFrom oracle n cap acts (initConfig n cap) s (Inv_init oracle n cap) h
  exact ⟨inv.abortingIffFailed,
    fun i hi hc => inv.abortingIffFailed.mp (inv.cancelledAborting i hi hc)⟩

/-- Witness for C2 amended at the concrete aborted run: task 1 ended
cancelled, so some task indeed exhausted its retries and failed. -/
theorem C2_amended_eager_abort_witness :
    ∃ j, ∃ hj : j < abortFinal.tasks.length, ∃ e,
      (abortFinal.tasks.get ⟨j, hj⟩).phase = Phase.failed e :=
  (C2_amended_eager_abort 2 SEMAPHORE abortOracle abortSchedule abortFinal rfl).2
    1 (by decide) rfl

/-- C1 amended: a run in which every task settles successfully yields a
`result` list of length `n` that is a permutation of the per-task records
(each successful task contributed its own item's extracted record exactly
once), but ordered by completion (append) order rather than by the item's
position index. -/
theorem C1_amended_completion_order (n cap : Nat) (oracle : RunOracle) (acts : List Action)
    (s : Config) (h : execFrom oracle (initConfig n cap) acts = some s)
    (hall : ∀ i (hi : i < s.tasks.length), ∃ c, (s.tasks.get ⟨i, hi⟩).phase = Phase.done c) :
    s.result.length = n ∧
    s.result.Perm (s.tasks.filterMap doneRecord) ∧
    ∀ i (hi : i < s.tasks.length) (c : Command),
      (s.tasks.get ⟨i, hi⟩).phase = Phase.done c → ∃ a, oracle i a = CallResult.ok c := by
  have inv := Inv_execFrom oracle n cap acts (initConfig n cap) s (Inv_init oracle n cap) h
  refine ⟨?_, inv.resultPerm, inv.doneFromOracle⟩
  have hlen := inv.resultPerm.length_eq
  have hfm : (s.tasks.filterMap doneRecord).length = s.tasks.length := by
    refine length_filterMap_of_forall doneRecord s.tasks ?_
    intro i hi
    rcases hall i hi with ⟨c, hc⟩
    simp only [doneRecord, hc]
    rfl
  rw [hlen, hfm, inv.tasksLen]

/-- Witness for C1 amended at the concrete swapped run: both tasks settled
successfully, the result has length 2 and is a permutation of the two
records. -/
theorem C1_amended_completion_order_witness :
    swapFinal.result.length = 2 ∧
    swapFinal.result.Perm (swapFinal.tasks.filterMap doneRecord) := by
  have hall : ∀ i (hi : i < swapFinal.tasks.length),
      ∃ c, (swapFinal.tasks.get ⟨i, hi⟩).phase = Phase.done c := by
    intro i hi
    have hlen : swapFinal.tasks.length = 2 := rfl
    rw [hlen] at hi
    rcases i with _ | _ | i
    · exact ⟨recordA, rfl⟩
    · exact ⟨recordB, rfl⟩
    · exact absurd hi (by omega)
  have h := C1_amended_completion_order 2 SEMAPHORE twoOkOracle swapSchedule
    swapFinal rfl hall
  exact ⟨h.1, h.2.1⟩

/-- C4 amended: a task emits exactly one progress tick when it settles
successfully and none when it fails; consequently in every reachable run
state the progress counter equals the number of successful tasks, never
exceeds the total, and never decreases across a step. -/
theorem C4_amended_progress (po : Oracle) (n cap : Nat) (oracle : RunOracle)
    (acts : List Action) (s : Config)
    (h : execFrom oracle (initConfig n cap) acts = some s) :
    countTicks (parse_command po).1 =
      (match (parse_command po).2 with
       | Except.ok _ => 1
       | Except.error _ => 0) ∧
    s.progress = countDone s.tasks ∧
    s.progress ≤ n ∧
    ∀ (act : Action) (s3 : Config), step oracle s act = some s3 →
      s.progress ≤ s3.progress := by
  have inv := Inv_execFrom oracle n cap acts (initConfig n cap) s (Inv_init oracle n cap) h
  refine ⟨parseCommandLoop_ticks po (List.range 5), inv.progressDone, ?_, ?_⟩
  · have hle : countDone s.tasks ≤ s.tasks.length := List.countP_le_length _
    rw [inv.progressDone, ← inv.tasksLen]
    exact hle
  · exact fun act s3 hs => progress_mono oracle s act s3 hs

/-- Witness for C4 amended: the always-failing item ticks zero times, and in
the concrete successful 2-item run the progress counter matches the number
of successful tasks and is at most the total. -/
theorem C4_amended_progress_witness :
    countTicks (parse_command (alwaysFails fun _ => "w2")).1 = 0 ∧
    swapFinal.progress = countDone swapFinal.tasks ∧ swapFinal.progress ≤ 2 := by
  have h := C4_amended_progress (alwaysFails fun _ => "w2") 2 SEMAPHORE twoOkOracle
    swapSchedule swapFinal rfl
  exact ⟨h.1.trans rfl, h.2.1, h.2.2.1⟩

end ParseCommands
